import Mathlib

/-!
Verification of the docker-proxy payload-rewrite engine and bridge manager
(src/docker-proxy/main.go), via a shallow embedding of its pure core.
Strings are modelled as lists of characters.
-/

/-- Strings of the Go program, modelled as lists of characters. -/
abbrev Str := List Char

/-- Left brace character, kept out of literals. -/
def lbrace : Char := Char.ofNat 123

/-- Right brace character, kept out of literals. -/
def rbrace : Char := Char.ofNat 125

/-- Models Go strings.HasSuffix(s, "/"): true iff the last character is '/'. -/
def hasSlashSuffix (s : Str) : Bool := s.getLast? = some '/'

/-- Embedding of translateWinPath (main.go:35-42):
drive is uppercased (strings.ToUpper, drives are ASCII letters in every use),
backslashes in path become forward slashes (strings.ReplaceAll),
a '/' is appended to basePath when it lacks one, then the pieces are joined
as fmt.Sprintf("%s%s/%s", basePath, drive, path). -/
def translateWinPath (basePath drive path : Str) : Str :=
  let drive2 := drive.map Char.toUpper
  let path2 := path.map (fun c => if c = '\\' then '/' else c)
  let base2 := if hasSlashSuffix basePath then basePath else basePath ++ ['/']
  base2 ++ drive2 ++ ['/'] ++ path2

/-- Separator class [\\/] of the two regexes in main.go:22-27. -/
def isSepChar (c : Char) : Bool := c = '\\' || c = '/'

/-- What Go regexp (.*) matches: the longest run not containing a newline
(Go's '.' does not match '\n' without the s flag). -/
def dotStar (s : Str) : Str := s.takeWhile (fun c => c ≠ '\n')

/-- Embedding of envPathRegex.FindStringSubmatch (main.go:26-27), pattern
caret ([a-zA-Z]):[\\/](.*) anchored at the start: on a match, returns the
drive capture and the (.*) capture (which stops at the first newline). -/
def envPathFind : Str → Option (Str × Str)
  | c :: c2 :: e :: rest =>
      if c.isAlpha && (c2 == ':') && isSepChar e then some ([c], dotStar rest) else none
  | _ => none

/-- Embedding of bindRegex.FindStringSubmatch (main.go:21-23), pattern
caret ([a-zA-Z]):[\\/]([^:]+)(.*) anchored at the start: the greedy [^:]+
capture is the longest nonempty colon-free run (newlines included, since a
negated class matches '\n'), and the (.*) capture stops at the first
newline. -/
def bindFind : Str → Option (Str × Str × Str)
  | c :: c2 :: e :: rest =>
      if c.isAlpha && (c2 == ':') && isSepChar e then
        let sub := rest.takeWhile (fun x => x != ':')
        if sub.isEmpty then none
        else some ([c], sub, dotStar (rest.drop sub.length))
      else none
  | _ => none

/-- Embedding of strings.SplitN(s, "=", 2) (main.go:153): some (k, v) when s
contains '=' (k the text before the first '=', v everything after it),
none when s has no '=' (Go returns the one-element slice [s]). -/
def splitFirstEq : Str → Option (Str × Str)
  | [] => none
  | c :: r =>
      if c = '=' then some ([], r)
      else
        match splitFirstEq r with
        | some (k, v) => some (c :: k, v)
        | none => none

/-- Per-element bind rewrite (main.go:122-129): a matching string becomes
translateWinPath(base, match1, match2) ++ match3, anything else is kept. -/
def rewriteBindEntry (base s : Str) : Str × Bool :=
  match bindFind s with
  | some (d, sub, suff) => (translateWinPath base d sub ++ suff, true)
  | none => (s, false)

/-- Per-element environment rewrite (main.go:152-160): split at the first
'=', and when the value matches envPathRegex replace the element by
key ++ "=" ++ translateWinPath(base, match1, match2). -/
def rewriteEnvEntry (base s : Str) : Str × Bool :=
  match splitFirstEq s with
  | some (k, v) =>
      match envPathFind v with
      | some (d, sub) => (k ++ '=' :: translateWinPath base d sub, true)
      | none => (s, false)
  | none => (s, false)

/-- Modelled from the spec's words for claim C2: the base "adjusted to end
in exactly one trailing slash" (all trailing slashes collapsed to one). -/
def exactOneTrailingSlash (s : Str) : Str :=
  (s.reverse.dropWhile (fun c => c = '/')).reverse ++ ['/']

/-- Modelled from the spec's words for claim C2: translation with the base
carrying exactly one trailing slash. -/
def translateSpecExactSlash (base d p : Str) : Str :=
  exactOneTrailingSlash base ++ d.map Char.toUpper ++ ['/'] ++
    p.map (fun c => if c = '\\' then '/' else c)

/-- True iff the string ends in two slashes. -/
def endsWithTwoSlashes (s : Str) : Bool :=
  match s.reverse with
  | c :: c2 :: _ => (c == '/') && (c2 == '/')
  | _ => false

/-- Modelled from the spec's words for claims C5/C3: the Path Reference
split of a bind entry, with the trailing suffix being ALL the text after
the matched sub-path (no newline truncation). -/
def bindSplitSpec : Str → Option (Str × Str × Str)
  | c :: c2 :: e :: rest =>
      if c.isAlpha && (c2 == ':') && isSepChar e then
        let sub := rest.takeWhile (fun x => x != ':')
        if sub.isEmpty then none else some ([c], sub, rest.drop sub.length)
      else none
  | _ => none

/-- Modelled from the spec's words for claims C6/C3: the Path Reference
split of an environment value, the sub-path being ALL the text after the
separator (no newline truncation). -/
def envSplitSpec : Str → Option (Str × Str)
  | c :: c2 :: e :: rest =>
      if c.isAlpha && (c2 == ':') && isSepChar e then some ([c], rest) else none
  | _ => none

/-- True iff the string starts with an ASCII letter followed by ':'. -/
def startsDriveColon : Str → Bool
  | c :: c2 :: _ => c.isAlpha && (c2 == ':')
  | _ => false

example : translateWinPath "/mnt/hgfs/docker/volumes/".data "C".data "data".data
    = "/mnt/hgfs/docker/volumes/C/data".data := by decide

example : rewriteBindEntry "/vol/".data "C:\\data:/app:ro".data
    = ("/vol/C/data:/app:ro".data, true) := by decide

example : rewriteEnvEntry "/vol/".data "DB_PATH=C:\\config\\db".data
    = ("DB_PATH=/vol/C/config/db".data, true) := by decide

example : rewriteEnvEntry "/vol/".data "NAME=value".data
    = ("NAME=value".data, false) := by decide

example : rewriteBindEntry "/vol/".data "C:/a:b\nc".data
    = ("/vol/C/a:b".data, true) := by decide

example : rewriteEnvEntry "/vol/".data "K=C:/a\nb".data
    = ("K=/vol/C/a".data, true) := by decide

example : translateWinPath "c:".data "d".data "x".data = "c:/D/x".data := by decide

example : (envPathFind "c:/D/x".data).isSome = true := by decide

/-!
JSON model. Mirrors the generic tree json.Unmarshal builds for a
map[string]interface{} target (main.go:108-113): objects become maps
(duplicate keys: the last value wins), arrays become slices, strings stay
strings. Numbers are kept as their source lexeme: the program never reads
a numeric value, and float64 re-formatting is outside this embedding.
-/

inductive Json where
  | null : Json
  | bool : Bool → Json
  | num : Str → Json
  | str : Str → Json
  | arr : List Json → Json
  | obj : List (Str × Json) → Json

/-- Object payloads: association lists with unique keys after parsing. -/
abbrev JObj := List (Str × Json)

/-- JSON whitespace accepted by Go's scanner. -/
def isJsonWs (c : Char) : Bool := c = ' ' || c = '\t' || c = '\n' || c = '\r'

/-- Drop leading JSON whitespace. -/
def skipWs (s : Str) : Str := s.dropWhile isJsonWs

/-- Value of a hexadecimal digit. -/
def hexVal (c : Char) : Option Nat :=
  if '0' ≤ c ∧ c ≤ '9' then some (c.toNat - '0'.toNat)
  else if 'a' ≤ c ∧ c ≤ 'f' then some (c.toNat - 'a'.toNat + 10)
  else if 'A' ≤ c ∧ c ≤ 'F' then some (c.toNat - 'A'.toNat + 10)
  else none

/-- Combine four hexadecimal digits into a code unit. -/
def hex4 (a b c d : Char) : Option Nat :=
  match hexVal a, hexVal b, hexVal c, hexVal d with
  | some x, some y, some z, some w => some (((x * 16 + y) * 16 + z) * 16 + w)
  | _, _, _, _ => none

/-- Go map lookup on a parsed object. -/
def objGet : JObj → Str → Option Json
  | [], _ => none
  | (k, v) :: rest, key => if k = key then some v else objGet rest key

/-- Go map store m[k] = v: replace the value when the key exists, append
otherwise. -/
def objUpsert : JObj → Str → Json → JObj
  | [], k, v => [(k, v)]
  | (k0, v0) :: rest, k, v =>
      if k0 = k then (k0, v) :: rest else (k0, v0) :: objUpsert rest k v

/-- Replay the members of an object literal through Go map stores, so that
a duplicated key keeps only its last value. -/
def dedupKeys (ms : JObj) : JObj :=
  ms.foldl (fun acc kv => objUpsert acc kv.1 kv.2) []

/-- Body of a JSON string literal, after the opening quote. Mirrors Go's
scanner and decoder: raw control characters below 0x20 are rejected, the
short escapes are decoded, and a \uXXXX escape follows Go's utf16 logic
(a valid surrogate pair is combined; an unpaired surrogate becomes
U+FFFD and only the first escape is consumed). Fuel bounds recursion; one
character is consumed per step, so length + 1 fuel always suffices. -/
def parseStrBody : Nat → Str → Option (Str × Str)
  | 0, _ => none
  | fuel + 1, s =>
    match s with
    | [] => none
    | '"' :: r => some ([], r)
    | '\\' :: rest =>
      match rest with
      | [] => none
      | e :: r =>
        if e = '"' then (parseStrBody fuel r).map (fun p => ('"' :: p.1, p.2))
        else if e = '\\' then (parseStrBody fuel r).map (fun p => ('\\' :: p.1, p.2))
        else if e = '/' then (parseStrBody fuel r).map (fun p => ('/' :: p.1, p.2))
        else if e = 'b' then (parseStrBody fuel r).map (fun p => (Char.ofNat 8 :: p.1, p.2))
        else if e = 'f' then (parseStrBody fuel r).map (fun p => (Char.ofNat 12 :: p.1, p.2))
        else if e = 'n' then (parseStrBody fuel r).map (fun p => ('\n' :: p.1, p.2))
        else if e = 'r' then (parseStrBody fuel r).map (fun p => ('\r' :: p.1, p.2))
        else if e = 't' then (parseStrBody fuel r).map (fun p => ('\t' :: p.1, p.2))
        else if e = 'u' then
          match r with
          | h1 :: h2 :: h3 :: h4 :: r3 =>
            match hex4 h1 h2 h3 h4 with
            | none => none
            | some n =>
              if 0xD800 ≤ n ∧ n ≤ 0xDFFF then
                match r3 with
                | '\\' :: 'u' :: g1 :: g2 :: g3 :: g4 :: r4 =>
                  match hex4 g1 g2 g3 g4 with
                  | some m =>
                    if (n < 0xDC00) ∧ (0xDC00 ≤ m ∧ m ≤ 0xDFFF) then
                      (parseStrBody fuel r4).map
                        (fun p => (Char.ofNat (0x10000 + (n - 0xD800) * 0x400 + (m - 0xDC00)) :: p.1, p.2))
                    else
                      (parseStrBody fuel r3).map (fun p => ('�' :: p.1, p.2))
                  | none => (parseStrBody fuel r3).map (fun p => ('�' :: p.1, p.2))
                | _ => (parseStrBody fuel r3).map (fun p => ('�' :: p.1, p.2))
              else
                (parseStrBody fuel r3).map (fun p => (Char.ofNat n :: p.1, p.2))
          | _ => none
        else none
    | c :: r =>
        if c.toNat < 32 then none
        else (parseStrBody fuel r).map (fun p => (c :: p.1, p.2))

/-- Longest run of decimal digits and the remainder. -/
def digitsTake (s : Str) : Str × Str :=
  (s.takeWhile Char.isDigit, s.dropWhile Char.isDigit)

/-- Optional exponent part of a JSON number. -/
def numExpPart (acc : Str) (s : Str) : Option (Str × Str) :=
  match s with
  | c :: r =>
      if c = 'e' ∨ c = 'E' then
        let sr : Str × Str :=
          match r with
          | '+' :: r2 => (['+'], r2)
          | '-' :: r2 => (['-'], r2)
          | _ => ([], r)
        match digitsTake sr.2 with
        | ([], _) => none
        | (ds, r3) => some (acc ++ c :: (sr.1 ++ ds), r3)
      else some (acc, s)
  | [] => some (acc, [])

/-- Optional fraction then exponent of a JSON number. -/
def numFracPart (acc : Str) (s : Str) : Option (Str × Str) :=
  match s with
  | '.' :: r =>
      (match digitsTake r with
       | ([], _) => none
       | (ds, r2) => numExpPart (acc ++ '.' :: ds) r2)
  | _ => numExpPart acc s

/-- JSON number lexeme per Go's scanner grammar: optional '-', then either
a lone '0' or a nonzero-led digit run, optional fraction, optional
exponent. Returns the lexeme and the remainder (the caller requires a
delimiter next, as the scanner does). -/
def parseNum (s : Str) : Option (Str × Str) :=
  let sr : Str × Str :=
    match s with
    | '-' :: r => (['-'], r)
    | _ => ([], s)
  match sr.2 with
  | '0' :: r => numFracPart (sr.1 ++ ['0']) r
  | c :: _ =>
      if c.isDigit then
        match digitsTake sr.2 with
        | (ds, r2) => numFracPart (sr.1 ++ ds) r2
      else none
  | [] => none

mutual

/-- One JSON value and the remaining input. Mirrors Go's scanner: leading
whitespace is skipped, then the value is dispatched on its first
character. Fuel decreases on every recursive call; the top entry point
passes 4 * length + 16, ample since every call consumes input. -/
def parseVal : Nat → Str → Option (Json × Str)
  | 0, _ => none
  | fuel + 1, s =>
    match skipWs s with
    | [] => none
    | c :: rest =>
      if c = lbrace then
        (parseObjBody fuel rest).map (fun p => (Json.obj (dedupKeys p.1), p.2))
      else if c = '[' then
        (parseArrBody fuel rest).map (fun p => (Json.arr p.1, p.2))
      else if c = '"' then
        (parseStrBody (rest.length + 1) rest).map (fun p => (Json.str p.1, p.2))
      else
        match c :: rest with
        | 'n' :: 'u' :: 'l' :: 'l' :: r => some (Json.null, r)
        | 't' :: 'r' :: 'u' :: 'e' :: r => some (Json.bool true, r)
        | 'f' :: 'a' :: 'l' :: 's' :: 'e' :: r => some (Json.bool false, r)
        | s2 =>
          if c = '-' ∨ c.isDigit then
            (parseNum s2).map (fun p => (Json.num p.1, p.2))
          else none

/-- Array body, right after '[': empty array or a nonempty element list. -/
def parseArrBody : Nat → Str → Option (List Json × Str)
  | 0, _ => none
  | fuel + 1, s =>
    match skipWs s with
    | ']' :: r => some ([], r)
    | s2 => parseElems fuel s2

/-- Nonempty comma-separated element list, then ']'. A trailing comma is a
syntax error, as in Go. -/
def parseElems : Nat → Str → Option (List Json × Str)
  | 0, _ => none
  | fuel + 1, s =>
    match parseVal fuel s with
    | none => none
    | some (v, r2) =>
      match skipWs r2 with
      | ',' :: r3 =>
          (parseElems fuel r3).map (fun p => (v :: p.1, p.2))
      | ']' :: r3 => some ([v], r3)
      | _ => none

/-- Object body, right after the opening brace: empty object or a nonempty
member list. -/
def parseObjBody : Nat → Str → Option (JObj × Str)
  | 0, _ => none
  | fuel + 1, s =>
    match skipWs s with
    | c :: r => if c = rbrace then some ([], r) else parseMembers fuel (c :: r)
    | [] => none

/-- Nonempty member list: a quoted key, ':', a value, then ',' and more
members or the closing brace. -/
def parseMembers : Nat → Str → Option (JObj × Str)
  | 0, _ => none
  | fuel + 1, s =>
    match skipWs s with
    | '"' :: r =>
      (match parseStrBody (r.length + 1) r with
       | none => none
       | some (k, r2) =>
         match skipWs r2 with
         | ':' :: r3 =>
           (match parseVal fuel r3 with
            | none => none
            | some (v, r4) =>
              match skipWs r4 with
              | ',' :: r5 => (parseMembers fuel r5).map (fun p => ((k, v) :: p.1, p.2))
              | c5 :: r5 => if c5 = rbrace then some ([(k, v)], r5) else none
              | [] => none)
         | _ => none)
    | _ => none

end

/-- Embedding of json.Unmarshal(bodyBytes, &containerMap) (main.go:107-113):
succeeds only when the whole input is one JSON object (plus whitespace).
A top-level "null" leaves the Go map nil, which the rest of the function
treats exactly like the error path (no match, no port, original bytes), so
it is folded into the none case here. -/
def parseTopObj (s : Str) : Option JObj :=
  match parseVal (4 * s.length + 16) s with
  | some (Json.obj ms, rest) => if skipWs rest = [] then some ms else none
  | _ => none

example : parseTopObj "not json".data = none := by rfl

example : parseTopObj "\x7b\"a\": [1, \"x\"], \"a\": true\x7d".data
    = some [("a".data, Json.bool true)] := by rfl

example : parseTopObj " \x7b \"k\" : \x7b\x7d \x7d ".data
    = some [("k".data, Json.obj [])] := by rfl

example : parseTopObj "\x7b\"a\":1\x7d x".data = none := by rfl

example : parseTopObj "[1,2]".data = none := by rfl

example : parseTopObj "\x7b\"a\":01\x7d".data = none := by rfl

example : parseTopObj "\x7b\"a\":\"\\u0041\\n\"\x7d".data
    = some [("a".data, Json.str "A\n".data)] := by rfl

/-- Is a JSON value a string? (the b.(string) type assertion). -/
def isStrJson : Json → Bool
  | Json.str _ => true
  | _ => false

/-- Per-element bind step of the loop at main.go:121-131: only string
elements that match bindRegex are replaced; the flag records whether the
loop set modified for this element. -/
def rewriteBindElem (base : Str) : Json → Json × Bool
  | Json.str s => (Json.str (rewriteBindEntry base s).1, (rewriteBindEntry base s).2)
  | j => (j, false)

/-- Per-element environment step of the loop at main.go:151-163. -/
def rewriteEnvElem (base : Str) : Json → Json × Bool
  | Json.str s => (Json.str (rewriteEnvEntry base s).1, (rewriteEnvEntry base s).2)
  | j => (j, false)

/-- Functional form of an in-place rewriting loop over a slice: the new
slice, and whether any element set the modified flag. -/
def rewriteList (f : Json → Json × Bool) (xs : List Json) : List Json × Bool :=
  (xs.map (fun j => (f j).1), xs.any (fun j => (f j).2))

/-- Port discovery over the PortBindings map (main.go:134-146): for every
entry whose value is a list, for every element that is an object with a
string HostPort field, one forwarder request is made. Go iterates the map
in unspecified order; the parse-time member order stands in for it. -/
def extractPorts (pb : JObj) : List Str :=
  pb.foldr
    (fun kv acc =>
      (match kv.2 with
       | Json.arr bl =>
           bl.foldr
             (fun b acc2 =>
               (match b with
                | Json.obj bm =>
                    (match objGet bm "HostPort".data with
                     | some (Json.str hp) => hp :: acc2
                     | _ => acc2)
                | _ => acc2))
             []
       | _ => []) ++ acc)
    []

/-- Ports discovered from a parsed payload: the PortBindings map inside
the HostConfig object, when both are present with the right types. -/
def extractPortsFields (fields : JObj) : List Str :=
  match objGet fields "HostConfig".data with
  | some (Json.obj hc) =>
      (match objGet hc "PortBindings".data with
       | some (Json.obj pb) => extractPorts pb
       | _ => [])
  | _ => []

/-- The HostConfig section of modifyAndExtract (main.go:117-146): rewrite
the Binds slice and collect the host ports. Go mutates the slices in
place inside the same tree; here the updated tree is rebuilt with map
stores. -/
def rewriteHostConfig (base : Str) (fields : JObj) : JObj × List Str × Bool :=
  match objGet fields "HostConfig".data with
  | some (Json.obj hc) =>
      let bindsStep : JObj × Bool :=
        match objGet hc "Binds".data with
        | some (Json.arr bs) =>
            let r := rewriteList (rewriteBindElem base) bs
            (objUpsert hc "Binds".data (Json.arr r.1), r.2)
        | _ => (hc, false)
      let ports : List Str :=
        match objGet hc "PortBindings".data with
        | some (Json.obj pb) => extractPorts pb
        | _ => []
      (objUpsert fields "HostConfig".data (Json.obj bindsStep.1), ports, bindsStep.2)
  | _ => (fields, [], false)

/-- The top-level Env rewriting loop (main.go:150-163). -/
def rewriteEnvSection (base : Str) (fields : JObj) : JObj × Bool :=
  match objGet fields "Env".data with
  | some (Json.arr es) =>
      let r := rewriteList (rewriteEnvElem base) es
      (objUpsert fields "Env".data (Json.arr r.1), r.2)
  | _ => (fields, false)

/-- HostConfig section then Env section, in source order, the modified
flag being the disjunction of the per-section flags. -/
def modifyTree (base : Str) (fields : JObj) : JObj × List Str × Bool :=
  let h := rewriteHostConfig base fields
  let e := rewriteEnvSection base h.1
  (e.1, h.2.1, h.2.2 || e.2)

/-- Byte order on keys, as sort.Strings uses in json.Marshal (UTF-8 byte
order coincides with code point order). -/
def strLtB : Str → Str → Bool
  | [], [] => false
  | [], _ :: _ => true
  | _ :: _, [] => false
  | a :: xs, b :: ys =>
      if a.toNat < b.toNat then true
      else if b.toNat < a.toNat then false
      else strLtB xs ys

/-- Insert one field into a key-sorted field list. -/
def insertField (kv : Str × Json) : JObj → JObj
  | [] => [kv]
  | kv2 :: rest =>
      if strLtB kv2.1 kv.1 then kv2 :: insertField kv rest else kv :: kv2 :: rest

/-- Sort fields by key, as json.Marshal does for maps. -/
def sortFields (ms : JObj) : JObj := ms.foldr insertField []

/-- Lower-case hexadecimal digit. -/
def hexDigit (n : Nat) : Char :=
  if n < 10 then Char.ofNat ('0'.toNat + n) else Char.ofNat ('a'.toNat + n - 10)

/-- String escaping of json.Marshal (HTML escaping on, its default): short
escapes for quote, backslash, newline, carriage return and tab; \u00xx for
other control characters; \u003c, \u003e, \u0026 for angle brackets and
ampersand; \u2028 and \u2029 escaped. -/
def escapeJsonChar (c : Char) : Str :=
  if c = '"' then ['\\', '"']
  else if c = '\\' then ['\\', '\\']
  else if c = '\n' then ['\\', 'n']
  else if c = '\r' then ['\\', 'r']
  else if c = '\t' then ['\\', 't']
  else if c = '<' then "\\u003c".data
  else if c = '>' then "\\u003e".data
  else if c = '&' then "\\u0026".data
  else if c.toNat < 32 then
    ['\\', 'u', '0', '0', hexDigit (c.toNat / 16), hexDigit (c.toNat % 16)]
  else if c.toNat = 0x2028 ∨ c.toNat = 0x2029 then
    ['\\', 'u', '2', '0', '2', hexDigit (c.toNat % 16)]
  else [c]

/-- Escaped, quoted JSON string literal. -/
def quoteJsonStr (s : Str) : Str :=
  '"' :: s.foldr (fun c acc => escapeJsonChar c ++ acc) ['"']

mutual

/-- Recursively sort every object's fields by key, as json.Marshal orders
map keys. -/
def sortTree : Json → Json
  | Json.obj ms => Json.obj (sortFields (sortTreeFields ms))
  | Json.arr xs => Json.arr (sortTreeElems xs)
  | j => j

/-- Field-wise recursion of sortTree. -/
def sortTreeFields : JObj → JObj
  | [] => []
  | (k, v) :: rest => (k, sortTree v) :: sortTreeFields rest

/-- Element-wise recursion of sortTree. -/
def sortTreeElems : List Json → List Json
  | [] => []
  | x :: rest => sortTree x :: sortTreeElems rest

end

mutual

/-- Serialization of a (key-sorted) tree with no added whitespace. Number
lexemes are emitted as stored; Go would re-format them through float64,
which no part of this development depends on. -/
def serializeVal : Json → Str
  | Json.null => "null".data
  | Json.bool true => "true".data
  | Json.bool false => "false".data
  | Json.num lex => lex
  | Json.str s => quoteJsonStr s
  | Json.arr xs => '[' :: serializeElemsJ xs ++ [']']
  | Json.obj ms => lbrace :: serializeMembersJ ms ++ [rbrace]

/-- Comma-separated serialized elements. -/
def serializeElemsJ : List Json → Str
  | [] => []
  | [x] => serializeVal x
  | x :: y :: rest => serializeVal x ++ ',' :: serializeElemsJ (y :: rest)

/-- Comma-separated serialized members. -/
def serializeMembersJ : JObj → Str
  | [] => []
  | [(k, v)] => quoteJsonStr k ++ ':' :: serializeVal v
  | (k, v) :: m2 :: rest =>
      quoteJsonStr k ++ ':' :: serializeVal v ++ ',' :: serializeMembersJ (m2 :: rest)

end

/-- Re-serialization by json.Marshal (main.go:168): every map rendered
with sorted keys. -/
def marshalJson (j : Json) : Str := serializeVal (sortTree j)

/-- Embedding of modifyAndExtract (main.go:101-178) from the body bytes on:
the final body bytes (the original bytes unless the modified flag was
set, in which case the re-marshalled tree), the host ports handed to
startForwarder, and the modified flag. A body that does not decode into a
JSON object is passed through untouched with no ports. Read errors and
nil bodies never reach this core and no error is ever returned. -/
def modifyAndExtract (base body : Str) : Str × List Str × Bool :=
  match parseTopObj body with
  | none => (body, [], false)
  | some fields =>
      let r := modifyTree base fields
      (if r.2.2 then marshalJson (Json.obj r.1) else body, r.2.1, r.2.2)

example :
    modifyAndExtract "/vol/".data
      "\x7b\"HostConfig\":\x7b\"Binds\":[\"C:\\\\data:/app:ro\"]\x7d\x7d".data
    = ("\x7b\"HostConfig\":\x7b\"Binds\":[\"/vol/C/data:/app:ro\"]\x7d\x7d".data, [], true) := by rfl

example :
    modifyAndExtract "/vol/".data
      "\x7b\"HostConfig\":\x7b\"PortBindings\":\x7b\"5432/tcp\":[\x7b\"HostPort\":\"54322\"\x7d]\x7d\x7d\x7d".data
    = ("\x7b\"HostConfig\":\x7b\"PortBindings\":\x7b\"5432/tcp\":[\x7b\"HostPort\":\"54322\"\x7d]\x7d\x7d\x7d".data,
       ["54322".data], false) := by rfl

example : modifyAndExtract "/vol/".data "not json".data
    = ("not json".data, [], false) := by rfl

/-!
Bridge manager (main.go:28-30, 180-197). The forwardMutex makes the
test-and-set on activeForwards atomic, so concurrent startForwarder calls
are modelled as an arbitrary sequence of atomic invocation events. Each
event carries the requested port and whether the local net.Listen bind
would succeed for it at that moment. Nothing in the program ever deletes
from activeForwards.
-/

/-- Process state of the bridge manager: the activeForwards registry, the
ports for which net.Listen was attempted, and the ports for which a
listener was created (net.Listen succeeded). -/
structure FwdState where
  registry : List Str
  attempted : List Str
  started : List Str

/-- Process start: empty registry, no attempts, no listeners. -/
def initFwdState : FwdState := ⟨[], [], []⟩

/-- One invocation of startForwarder(port, targetIP) (main.go:180-197):
under the mutex, a port already in activeForwards returns at once;
otherwise the port is registered, the mutex released, and the local bind
attempted, creating a listener iff the bind succeeds. -/
def startForwarderStep (st : FwdState) (p : Str) (bindOk : Bool) : FwdState :=
  if p ∈ st.registry then st
  else
    { registry := p :: st.registry
      attempted := p :: st.attempted
      started := if bindOk then p :: st.started else st.started }

/-- Run a sequence of invocation events from process start. -/
def runForwarders (evs : List (Str × Bool)) : FwdState :=
  evs.foldl (fun st ev => startForwarderStep st ev.1 ev.2) initFwdState

example :
    runForwarders [("54322".data, true), ("54322".data, true), ("8000".data, false)]
    = ⟨["8000".data, "54322".data], ["8000".data, "54322".data], ["54322".data]⟩ := by rfl

/-! Helper lemmas. -/

/-- The code's bind matcher is the spec's Path Reference split with the
trailing capture cut at the first newline. -/
lemma bindFind_eq_spec (s : Str) :
    bindFind s = (bindSplitSpec s).map (fun t => (t.1, t.2.1, dotStar t.2.2)) := by
  match s with
  | [] => rfl
  | [c] => rfl
  | [c, c2] => rfl
  | c :: c2 :: e :: rest =>
    cases hcond : c.isAlpha && (c2 == ':') && isSepChar e with
    | true =>
      cases hsub : (rest.takeWhile (fun x => x != ':')).isEmpty with
      | true => simp [bindFind, bindSplitSpec, hcond, hsub]
      | false => simp [bindFind, bindSplitSpec, hcond, hsub]
    | false => simp [bindFind, bindSplitSpec, hcond]

/-- The code's environment-value matcher is the spec's split with the
sub-path capture cut at the first newline. -/
lemma envPathFind_eq_spec (s : Str) :
    envPathFind s = (envSplitSpec s).map (fun t => (t.1, dotStar t.2)) := by
  match s with
  | [] => rfl
  | [c] => rfl
  | [c, c2] => rfl
  | c :: c2 :: e :: rest =>
    cases hcond : c.isAlpha && (c2 == ':') && isSepChar e with
    | true => simp [envPathFind, envSplitSpec, hcond]
    | false => simp [envPathFind, envSplitSpec, hcond]

/-- C4 -- A body that does not decode as a JSON object is passed through
byte-for-byte, with no ports discovered, the modified flag unset, and (the
function being total) no error surfaced. -/
theorem modifyAndExtract_nonjson_passthrough (base body : Str)
    (h : parseTopObj body = none) :
    modifyAndExtract base body = (body, [], false) := by
  simp [modifyAndExtract, h]

/-- Witness for C4 at the concrete non-JSON body "not json". -/
theorem modifyAndExtract_nonjson_passthrough_witness :
    modifyAndExtract "/vol/".data "not json".data = ("not json".data, [], false) :=
  modifyAndExtract_nonjson_passthrough "/vol/".data "not json".data rfl

/-- C5 counterexample -- for the bind element "C:/a:b\nc" the text following
the matched sub-path is ":b\nc", but the rewrite appends only ":b": the
(.*) capture of Go's regexp stops at the newline, so the claimed output
translate(base, "C", "a") ++ ":b\nc" is not produced. -/
theorem rewriteBind_trailing_newline_cex :
    bindSplitSpec "C:/a:b\nc".data = some ("C".data, "a".data, ":b\nc".data)
    ∧ rewriteBindEntry "/vol/".data "C:/a:b\nc".data
        ≠ (translateWinPath "/vol/".data "C".data "a".data ++ ":b\nc".data, true) := by
  constructor
  · decide
  · decide

/-- C5 amended -- a bind element matching the Path Reference pattern with
drive d, sub-path p and trailing text t is replaced by
translate(base, d, p) ++ t-up-to-the-first-newline (text of t from the
first newline on is dropped); non-matching elements and non-string
elements are left untouched. -/
theorem rewriteBind_spec_upto_newline (base s : Str) :
    (∀ d sub rest, bindSplitSpec s = some (d, sub, rest) →
        rewriteBindEntry base s = (translateWinPath base d sub ++ dotStar rest, true))
    ∧ (bindSplitSpec s = none → rewriteBindEntry base s = (s, false))
    ∧ (∀ j : Json, isStrJson j = false → rewriteBindElem base j = (j, false)) := by
  refine ⟨?_, ?_, ?_⟩
  · intro d sub rest h
    simp [rewriteBindEntry, bindFind_eq_spec, h]
  · intro h
    simp [rewriteBindEntry, bindFind_eq_spec, h]
  · intro j hj
    cases j <;> simp_all [isStrJson, rewriteBindElem]

/-- Witness for C5 amended at the spec's own scenario: bind element
"C:\\data:/app:ro" with base "/vol/" becomes "/vol/C/data:/app:ro". -/
theorem rewriteBind_spec_upto_newline_witness :
    rewriteBindEntry "/vol/".data "C:\\data:/app:ro".data
      = ("/vol/C/data:/app:ro".data, true) :=
  (rewriteBind_spec_upto_newline "/vol/".data "C:\\data:/app:ro".data).1
    "C".data "data".data ":/app:ro".data (by decide)

/-- C6 counterexample -- for the environment element "K=C:/a\nb" the value
matches the Path Reference pattern with drive "C" and sub-path "a\nb",
but the rewrite produces "K=/vol/C/a" rather than the claimed
"K=" ++ translate(base, "C", "a\nb"): the (.*) capture stops at the
newline and the tail "\nb" is dropped. -/
theorem rewriteEnv_value_newline_cex :
    splitFirstEq "K=C:/a\nb".data = some ("K".data, "C:/a\nb".data)
    ∧ envSplitSpec "C:/a\nb".data = some ("C".data, "a\nb".data)
    ∧ rewriteEnvEntry "/vol/".data "K=C:/a\nb".data
        ≠ ("K".data ++ '=' :: translateWinPath "/vol/".data "C".data "a\nb".data, true) := by
  refine ⟨by decide, by decide, by decide⟩

/-- C6 amended -- an environment element KEY=VALUE whose VALUE matches the
Path Reference pattern is replaced by KEY= followed by
translate(base, drive, sub-path-up-to-the-first-newline); the key is kept,
text of the value from the first newline on is dropped, and elements
without '=' or with a non-matching value, and non-string elements, are
left untouched. -/
theorem rewriteEnv_spec_upto_newline (base s : Str) :
    (∀ k v, splitFirstEq s = some (k, v) →
        (∀ d sub, envSplitSpec v = some (d, sub) →
            rewriteEnvEntry base s = (k ++ '=' :: translateWinPath base d (dotStar sub), true))
        ∧ (envSplitSpec v = none → rewriteEnvEntry base s = (s, false)))
    ∧ (splitFirstEq s = none → rewriteEnvEntry base s = (s, false))
    ∧ (∀ j : Json, isStrJson j = false → rewriteEnvElem base j = (j, false)) := by
  refine ⟨?_, ?_, ?_⟩
  · intro k v hkv
    constructor
    · intro d sub hds
      simp [rewriteEnvEntry, hkv, envPathFind_eq_spec, hds]
    · intro hds
      simp [rewriteEnvEntry, hkv, envPathFind_eq_spec, hds]
  · intro h
    simp [rewriteEnvEntry, h]
  · intro j hj
    cases j <;> simp_all [isStrJson, rewriteEnvElem]

/-- Witness for C6 amended at the spec's scenario: "DB_PATH=C:\\config\\db"
with base "/vol/" becomes "DB_PATH=/vol/C/config/db". -/
theorem rewriteEnv_spec_upto_newline_witness :
    rewriteEnvEntry "/vol/".data "DB_PATH=C:\\config\\db".data
      = ("DB_PATH=/vol/C/config/db".data, true) :=
  (((rewriteEnv_spec_upto_newline "/vol/".data "DB_PATH=C:\\config\\db".data).1
      "DB_PATH".data "C:\\config\\db".data (by decide)).1
    "C".data "config\\db".data (by decide))

/-- When the base does not already end in two slashes, collapsing trailing
slashes to one coincides with the code's append-a-slash-when-missing. -/
lemma exactOne_of_not_double (b : Str) (h : endsWithTwoSlashes b = false) :
    exactOneTrailingSlash b = if hasSlashSuffix b then b else b ++ ['/'] := by
  have hlast : b.getLast? = b.reverse.head? := (List.head?_reverse b).symm
  cases hb : b.reverse with
  | nil =>
    have hbnil : b = [] := by
      have h2 := congrArg List.reverse hb
      simpa using h2
    subst hbnil
    simp [exactOneTrailingSlash, hasSlashSuffix]
  | cons c rest =>
    have hbeq : b = rest.reverse ++ [c] := by
      have h2 := congrArg List.reverse hb
      simpa using h2
    by_cases hc : c = '/'
    · subst hc
      have hsuf : hasSlashSuffix b = true := by
        simp [hasSlashSuffix, hlast, hb]
      rw [hsuf, if_pos rfl]
      cases rest with
      | nil =>
        rw [exactOneTrailingSlash, hb]
        rw [hbeq]
        simp [List.dropWhile]
      | cons c2 rest2 =>
        have hc2 : ¬ (c2 = '/') := by
          intro hc2
          subst hc2
          rw [endsWithTwoSlashes, hb] at h
          simp at h
        rw [exactOneTrailingSlash, hb]
        rw [hbeq]
        simp [List.dropWhile, hc2]
    · have hsuf : hasSlashSuffix b = false := by
        simp [hasSlashSuffix, hlast, hb, hc]
      rw [hsuf, if_neg (by simp)]
      rw [exactOneTrailingSlash, hb]
      rw [hbeq]
      simp [List.dropWhile, hc]

/-- C2 counterexample -- for the base "a//" the code keeps both trailing
slashes (strings.HasSuffix already holds, nothing is trimmed), so the
output is "a//C/p" and not the claimed base-with-exactly-one-trailing-
slash form "a/C/p". -/
theorem translateWinPath_exact_slash_cex :
    translateWinPath "a//".data "c".data "p".data
        ≠ translateSpecExactSlash "a//".data "c".data "p".data
    ∧ translateWinPath "a//".data "c".data "p".data = "a//C/p".data
    ∧ translateSpecExactSlash "a//".data "c".data "p".data = "a/C/p".data := by
  refine ⟨by decide, by decide, by decide⟩

/-- C2 amended -- translateWinPath is pure and total, and returns
base' ++ uppercase(drive) ++ "/" ++ path-with-backslashes-replaced, where
base' is base with '/' appended when base does not already end in '/'
(so base' ends in at least one slash; pre-existing extra trailing slashes
are kept). Whenever base does not end in two slashes this coincides with
the claimed exactly-one-trailing-slash form. -/
theorem translateWinPath_base_slash_amended (b d p : Str) :
    translateWinPath b d p
      = (if hasSlashSuffix b then b else b ++ ['/']) ++ d.map Char.toUpper ++ ['/']
          ++ p.map (fun c => if c = '\\' then '/' else c)
    ∧ (endsWithTwoSlashes b = false →
        translateWinPath b d p = translateSpecExactSlash b d p) := by
  constructor
  · rfl
  · intro h
    rw [translateSpecExactSlash, exactOne_of_not_double b h]
    rfl

/-- Witness for C2 amended at the default base, a drive letter and a
backslashed sub-path. -/
theorem translateWinPath_base_slash_amended_witness :
    translateWinPath "/mnt/hgfs/docker/volumes/".data "c".data "a\\b".data
      = translateSpecExactSlash "/mnt/hgfs/docker/volumes/".data "c".data "a\\b".data :=
  (translateWinPath_base_slash_amended "/mnt/hgfs/docker/volumes/".data
      "c".data "a\\b".data).2 (by decide)

/-- startsDriveColon on a two-or-more-character string only looks at the
first two characters. -/
lemma startsDriveColon_cons_cons (c c2 : Char) (L : Str) :
    startsDriveColon (c :: c2 :: L) = (c.isAlpha && (c2 == ':')) := rfl

/-- A string headed by a non-letter never starts with drive-colon. -/
lemma startsDriveColon_cons_not_alpha (c : Char) (hc : c.isAlpha = false) (L : Str) :
    startsDriveColon (c :: L) = false := by
  cases L with
  | nil => rfl
  | cons a r => simp [startsDriveColon_cons_cons, hc]

/-- A string whose second character is not ':' never starts with
drive-colon. -/
lemma startsDriveColon_cons_cons_not_colon (c c2 : Char) (hc2 : (c2 == ':') = false)
    (L : Str) : startsDriveColon (c :: c2 :: L) = false := by
  simp [startsDriveColon_cons_cons, hc2]

/-- Translation output (with anything appended) never starts with
drive-colon when the base itself does not. -/
lemma translate_keeps_no_drive_colon (b d p t : Str) (hb : startsDriveColon b = false) :
    startsDriveColon (translateWinPath b d p ++ t) = false := by
  simp only [translateWinPath]
  cases b with
  | nil =>
    have h0 : hasSlashSuffix [] = false := by decide
    rw [h0, if_neg (by simp)]
    exact startsDriveColon_cons_not_alpha '/' (by decide) _
  | cons c r =>
    cases r with
    | nil =>
      by_cases hc : c = '/'
      · subst hc
        have h0 : hasSlashSuffix ['/'] = true := by decide
        rw [h0, if_pos rfl]
        exact startsDriveColon_cons_not_alpha '/' (by decide) _
      · have h0 : hasSlashSuffix [c] = false := by
          simp [hasSlashSuffix, hc]
        rw [h0, if_neg (by simp)]
        exact startsDriveColon_cons_cons_not_colon c '/' (by decide) _
    | cons c2 r2 =>
      cases h0 : hasSlashSuffix (c :: c2 :: r2) with
      | true =>
        rw [if_pos rfl]
        exact hb
      | false =>
        rw [if_neg (by simp)]
        exact hb

/-- Failing the drive-colon prefix test means failing envPathRegex. -/
lemma envPathFind_none_of_no_drive (s : Str) (h : startsDriveColon s = false) :
    envPathFind s = none := by
  match s with
  | [] => rfl
  | [c] => rfl
  | [c, c2] => rfl
  | c :: c2 :: e :: rest =>
    have h2 : (c.isAlpha && (c2 == ':')) = false := h
    simp [envPathFind, h2]

/-- Failing the drive-colon prefix test means failing bindRegex. -/
lemma bindFind_none_of_no_drive (s : Str) (h : startsDriveColon s = false) :
    bindFind s = none := by
  match s with
  | [] => rfl
  | [c] => rfl
  | [c, c2] => rfl
  | c :: c2 :: e :: rest =>
    have h2 : (c.isAlpha && (c2 == ':')) = false := h
    simp [bindFind, h2]

/-- A non-matching bind element is left untouched. -/
lemma rewriteBindEntry_noop (base s : Str) (h : bindFind s = none) :
    rewriteBindEntry base s = (s, false) := by
  simp [rewriteBindEntry, h]

/-- Splitting a key-equals-value string whose key holds no '=' yields that
key and value. -/
lemma splitFirstEq_append_eq (k v : Str) (hk : k.contains '=' = false) :
    splitFirstEq (k ++ '=' :: v) = some (k, v) := by
  induction k with
  | nil => simp [splitFirstEq]
  | cons c r ih =>
    rw [List.contains_cons] at hk
    rw [Bool.or_eq_false_iff] at hk
    have hc : ¬ (c = '=') := by
      intro hc2
      rw [hc2] at hk
      simp at hk
    rw [List.cons_append, splitFirstEq]
    rw [if_neg hc, ih hk.2]

/-- An environment element whose key holds no '=' and whose value fails
envPathRegex is left untouched. -/
lemma rewriteEnvEntry_noop_of_value (base k v : Str) (hk : k.contains '=' = false)
    (h : envPathFind v = none) :
    rewriteEnvEntry base (k ++ '=' :: v) = (k ++ '=' :: v, false) := by
  simp [rewriteEnvEntry, splitFirstEq_append_eq k v hk, h]

/-- C3 counterexample -- the base "c:" is non-empty, yet the translation
output "c:/D/x" does match the Path Reference pattern again (and a second
bind rewrite changes it), because the base itself carries a drive-colon
prefix which the match is anchored on. -/
theorem translated_path_rematches_cex :
    "c:".data ≠ ([] : Str)
    ∧ translateWinPath "c:".data "d".data "x".data = "c:/D/x".data
    ∧ (envPathFind "c:/D/x".data).isSome = true
    ∧ (bindFind "c:/D/x".data).isSome = true
    ∧ (rewriteBindEntry "c:".data "c:/D/x".data).1 ≠ "c:/D/x".data := by
  refine ⟨by decide, by decide, by decide, by decide, by decide⟩

/-- C3 amended -- for every base that does not itself begin with an ASCII
letter followed by ':', no translation output (with any trailing text
appended, as in a rewritten bind entry) matches the Path Reference
pattern again, so a second bind or environment rewrite over an
already-rewritten entry leaves it unchanged. -/
theorem translated_path_never_rematches (b d p t k base2 base3 : Str)
    (hb : startsDriveColon b = false) (hk : k.contains '=' = false) :
    envPathFind (translateWinPath b d p ++ t) = none
    ∧ bindFind (translateWinPath b d p ++ t) = none
    ∧ rewriteBindEntry base2 (translateWinPath b d p ++ t)
        = (translateWinPath b d p ++ t, false)
    ∧ rewriteEnvEntry base3 (k ++ '=' :: translateWinPath b d p)
        = (k ++ '=' :: translateWinPath b d p, false) := by
  have h1 := translate_keeps_no_drive_colon b d p t hb
  have h2 := translate_keeps_no_drive_colon b d p [] hb
  have h3 : envPathFind (translateWinPath b d p) = none := by
    have h4 := envPathFind_none_of_no_drive _ h2
    rwa [List.append_nil] at h4
  exact ⟨envPathFind_none_of_no_drive _ h1,
         bindFind_none_of_no_drive _ h1,
         rewriteBindEntry_noop _ _ (bindFind_none_of_no_drive _ h1),
         rewriteEnvEntry_noop_of_value base3 k _ hk h3⟩

/-- Witness for C3 amended: re-running both rewrites over entries already
rewritten against the default base is a no-op. -/
theorem translated_path_never_rematches_witness :
    rewriteBindEntry "/vol/".data
        (translateWinPath "/mnt/hgfs/docker/volumes/".data "C".data "data".data
          ++ ":/app:ro".data)
      = (translateWinPath "/mnt/hgfs/docker/volumes/".data "C".data "data".data
          ++ ":/app:ro".data, false)
    ∧ rewriteEnvEntry "/vol/".data
        ("DB_PATH".data ++ '='
          :: translateWinPath "/mnt/hgfs/docker/volumes/".data "C".data "config/db".data)
      = ("DB_PATH".data ++ '='
          :: translateWinPath "/mnt/hgfs/docker/volumes/".data "C".data "config/db".data,
         false) :=
  ⟨(translated_path_never_rematches "/mnt/hgfs/docker/volumes/".data "C".data "data".data
      ":/app:ro".data "DB_PATH".data "/vol/".data "/vol/".data (by decide) (by decide)).2.2.1,
   (translated_path_never_rematches "/mnt/hgfs/docker/volumes/".data "C".data "config/db".data
      ":/app:ro".data "DB_PATH".data "/vol/".data "/vol/".data (by decide) (by decide)).2.2.2⟩

/-- When s contains '=', splitFirstEq cuts exactly at the first '=': the
key is the longest '='-free prefix, the value all that follows. -/
lemma splitFirstEq_of_mem (s : Str) (h : '=' ∈ s) :
    splitFirstEq s
      = some (s.takeWhile (fun c => c != '='), (s.dropWhile (fun c => c != '=')).tail) := by
  induction s with
  | nil => simp at h
  | cons c r ih =>
    by_cases hc : c = '='
    · subst hc
      rw [splitFirstEq, if_pos rfl]
      simp [List.takeWhile_cons, List.dropWhile_cons]
    · have hr : '=' ∈ r := by
        rcases List.mem_cons.mp h with h1 | h1
        · exact absurd h1.symm hc
        · exact h1
      rw [splitFirstEq, if_neg hc, ih hr]
      simp [List.takeWhile_cons, List.dropWhile_cons, hc]

/-- With at least two '=' characters, the value part still contains one. -/
lemma mem_eq_tail_dropWhile (s : Str) (h : 1 < List.count '=' s) :
    '=' ∈ (s.dropWhile (fun c => c != '=')).tail := by
  induction s with
  | nil => simp at h
  | cons c r ih =>
    by_cases hc : c = '='
    · subst hc
      rw [List.dropWhile_cons]
      simp only [bne_self_eq_false, Bool.false_eq_true, if_false, List.tail_cons]
      rw [List.count_cons_self] at h
      have h2 : 0 < List.count '=' r := by omega
      exact List.count_pos_iff.mp h2
    · rw [List.dropWhile_cons]
      have hpred : (c != '=') = true := by simp [hc]
      rw [hpred, if_pos rfl]
      apply ih
      rw [List.count_cons_of_ne (fun h2 => hc h2.symm)] at h
      exact h

/-- C10 -- an environment string with more than one '=' is split only at
the first: the key is the text before it, the value the whole remainder
(later '=' characters included), and when that remainder matches
envPathRegex the element is rewritten from the remainder as one value. -/
theorem envEntry_split_at_first_eq (base s : Str) (h : 1 < List.count '=' s) :
    splitFirstEq s
      = some (s.takeWhile (fun c => c != '='), (s.dropWhile (fun c => c != '=')).tail)
    ∧ '=' ∈ (s.dropWhile (fun c => c != '=')).tail
    ∧ (∀ d sub, envPathFind ((s.dropWhile (fun c => c != '=')).tail) = some (d, sub) →
        rewriteEnvEntry base s
          = (s.takeWhile (fun c => c != '=') ++ '=' :: translateWinPath base d sub, true)) := by
  have hmem : '=' ∈ s := by
    have h2 : 0 < List.count '=' s := by omega
    exact List.count_pos_iff.mp h2
  refine ⟨splitFirstEq_of_mem s hmem, mem_eq_tail_dropWhile s h, ?_⟩
  intro d sub hf
  simp [rewriteEnvEntry, splitFirstEq_of_mem s hmem, hf]

/-- Witness for C10: "K=C:/a=b" splits at its first '=', and the value
"C:/a=b" is translated as one value, later '=' included. -/
theorem envEntry_split_at_first_eq_witness :
    rewriteEnvEntry "/vol/".data "K=C:/a=b".data = ("K=/vol/C/a=b".data, true) :=
  (envEntry_split_at_first_eq "/vol/".data "K=C:/a=b".data (by decide)).2.2
    "C".data "a=b".data (by decide)

/-! Bridge manager invariants. -/

/-- Registry, attempt and listener bookkeeping preserved by every step:
attempts and listeners are registered ports, and neither list repeats a
port. -/
def FwdInv (st : FwdState) : Prop :=
  (∀ q, q ∈ st.attempted → q ∈ st.registry)
  ∧ (∀ q, q ∈ st.started → q ∈ st.registry)
  ∧ st.attempted.Nodup ∧ st.started.Nodup

/-- One startForwarder invocation preserves the bookkeeping invariant. -/
lemma fwdInv_step (st : FwdState) (p : Str) (ok : Bool) (h : FwdInv st) :
    FwdInv (startForwarderStep st p ok) := by
  obtain ⟨ha, hs, hna, hns⟩ := h
  rw [startForwarderStep]
  by_cases hp : p ∈ st.registry
  · rw [if_pos hp]
    exact ⟨ha, hs, hna, hns⟩
  · rw [if_neg hp]
    refine ⟨?_, ?_, ?_, ?_⟩
    · intro q hq
      rcases List.mem_cons.mp hq with h1 | h1
      · exact List.mem_cons.mpr (Or.inl h1)
      · exact List.mem_cons.mpr (Or.inr (ha q h1))
    · intro q hq
      cases ok with
      | true =>
        rcases List.mem_cons.mp hq with h1 | h1
        · exact List.mem_cons.mpr (Or.inl h1)
        · exact List.mem_cons.mpr (Or.inr (hs q h1))
      | false =>
        exact List.mem_cons.mpr (Or.inr (hs q hq))
    · exact List.nodup_cons.mpr ⟨fun h1 => hp (ha p h1), hna⟩
    · cases ok with
      | true => exact List.nodup_cons.mpr ⟨fun h1 => hp (hs p h1), hns⟩
      | false => exact hns

/-- Folding steps from an invariant state keeps the invariant. -/
lemma fwdInv_foldl (evs : List (Str × Bool)) (st : FwdState) (h : FwdInv st) :
    FwdInv (evs.foldl (fun st2 ev => startForwarderStep st2 ev.1 ev.2) st) := by
  induction evs generalizing st with
  | nil => exact h
  | cons ev rest ih =>
    exact ih _ (fwdInv_step st ev.1 ev.2 h)

/-- The invariant holds along every run from process start. -/
lemma fwdInv_run (evs : List (Str × Bool)) : FwdInv (runForwarders evs) :=
  fwdInv_foldl evs initFwdState ⟨fun _ h => (nomatch h), fun _ h => (nomatch h),
    List.nodup_nil, List.nodup_nil⟩

/-- A list without duplicates counts any element at most once. -/
lemma count_le_one_of_nodup (p : Str) (l : List Str) (hl : l.Nodup) :
    l.count p ≤ 1 := by
  induction l with
  | nil => simp
  | cons a r ih =>
    rw [List.nodup_cons] at hl
    by_cases hap : p = a
    · subst hap
      rw [List.count_cons_self]
      have h0 : r.count p = 0 := List.count_eq_zero.mpr hl.1
      omega
    · rw [List.count_cons_of_ne hap]
      exact ih hl.2

/-- A registered port stays registered under any further events, and its
attempt count, listener count and listener membership are frozen. -/
lemma fwd_frozen (evs : List (Str × Bool)) (st : FwdState) (p : Str)
    (h : p ∈ st.registry) :
    p ∈ (evs.foldl (fun st2 ev => startForwarderStep st2 ev.1 ev.2) st).registry
    ∧ (evs.foldl (fun st2 ev => startForwarderStep st2 ev.1 ev.2) st).attempted.count p
        = st.attempted.count p
    ∧ (evs.foldl (fun st2 ev => startForwarderStep st2 ev.1 ev.2) st).started.count p
        = st.started.count p
    ∧ ((p ∈ (evs.foldl (fun st2 ev => startForwarderStep st2 ev.1 ev.2) st).started)
        ↔ p ∈ st.started) := by
  induction evs generalizing st with
  | nil => exact ⟨h, rfl, rfl, Iff.rfl⟩
  | cons ev rest ih =>
    simp only [List.foldl_cons]
    rw [startForwarderStep]
    by_cases hp : ev.1 ∈ st.registry
    · rw [if_pos hp]
      exact ih st h
    · rw [if_neg hp]
      have hne : ev.1 ≠ p := fun h2 => hp (h2 ▸ h)
      have h2 : p ∈ (FwdState.mk (ev.1 :: st.registry) (ev.1 :: st.attempted)
          (if ev.2 then ev.1 :: st.started else st.started)).registry :=
        List.mem_cons.mpr (Or.inr h)
      obtain ⟨r1, r2, r3, r4⟩ := ih _ h2
      refine ⟨r1, ?_, ?_, ?_⟩
      · rw [r2]
        exact List.count_cons_of_ne (fun h3 => hne h3.symm) _
      · rw [r3]
        cases ev.2 with
        | true => exact List.count_cons_of_ne (fun h3 => hne h3.symm) _
        | false => rfl
      · rw [r4]
        cases ev.2 with
        | true =>
          constructor
          · intro h3
            rcases List.mem_cons.mp h3 with h4 | h4
            · exact absurd h4.symm hne
            · exact h4
          · intro h3
            exact List.mem_cons.mpr (Or.inr h3)
        | false => exact Iff.rfl

/-- C1 -- per port, at most one listener (indeed at most one bind attempt)
over any run; a first-seen port is registered and its bind attempted
(with a listener when the bind succeeds); a call for an
already-registered port is a strict no-op; registration is monotone over
any continuation of the run. -/
theorem startForwarder_at_most_one (evs evs' : List (Str × Bool))
    (st : FwdState) (p : Str) (ok : Bool) :
    (runForwarders evs).started.count p ≤ 1
    ∧ (runForwarders evs).attempted.count p ≤ 1
    ∧ (p ∉ st.registry →
        (startForwarderStep st p ok).registry = p :: st.registry
        ∧ (startForwarderStep st p ok).attempted = p :: st.attempted
        ∧ (ok = true → (startForwarderStep st p ok).started = p :: st.started))
    ∧ (p ∈ st.registry → startForwarderStep st p ok = st)
    ∧ (p ∈ (runForwarders evs).registry → p ∈ (runForwarders (evs ++ evs')).registry) := by
  obtain ⟨ha, hs, hna, hns⟩ := fwdInv_run evs
  refine ⟨?_, ?_, ?_, ?_, ?_⟩
  · exact count_le_one_of_nodup p _ hns
  · exact count_le_one_of_nodup p _ hna
  · intro hp
    rw [startForwarderStep, if_neg hp]
    exact ⟨rfl, rfl, fun hok => by rw [hok]; rfl⟩
  · intro hp
    rw [startForwarderStep, if_pos hp]
  · intro hp
    rw [runForwarders, List.foldl_append]
    exact (fwd_frozen evs' (runForwarders evs) p hp).1

/-- Witness for C1: two requests for port 54322 (the spec's scenario 4)
yield one listener; the second call is a no-op; the port stays registered
after further events. -/
theorem startForwarder_at_most_one_witness :
    (runForwarders [("54322".data, true), ("54322".data, true)]).started.count "54322".data ≤ 1
    ∧ (startForwarderStep initFwdState "54322".data true).registry = ["54322".data]
    ∧ (startForwarderStep (runForwarders [("54322".data, true)]) "54322".data true
        = runForwarders [("54322".data, true)])
    ∧ "54322".data ∈ (runForwarders ([("54322".data, true)] ++ [("8000".data, false)])).registry :=
  ⟨(startForwarder_at_most_one [("54322".data, true), ("54322".data, true)] []
      initFwdState "54322".data true).1,
   ((startForwarder_at_most_one [] [] initFwdState "54322".data true).2.2.1
      (by decide)).1,
   (startForwarder_at_most_one [] [] (runForwarders [("54322".data, true)])
      "54322".data true).2.2.2.1 (by decide),
   (startForwarder_at_most_one [("54322".data, true)] [("8000".data, false)]
      initFwdState "54322".data true).2.2.2.2 (by decide)⟩

/-- C7 -- once a port is registered but its local bind failed (no listener
exists), no continuation of the run ever binds it again: the port stays
registered, no listener for it ever exists, and its attempt count never
changes. -/
theorem startForwarder_failed_never_retried (evs evs' : List (Str × Bool)) (p : Str)
    (hmem : p ∈ (runForwarders evs).registry)
    (hfail : p ∉ (runForwarders evs).started) :
    p ∈ (runForwarders (evs ++ evs')).registry
    ∧ p ∉ (runForwarders (evs ++ evs')).started
    ∧ (runForwarders (evs ++ evs')).attempted.count p
        = (runForwarders evs).attempted.count p := by
  rw [runForwarders, List.foldl_append]
  obtain ⟨r1, r2, r3, r4⟩ := fwd_frozen evs' (runForwarders evs) p hmem
  exact ⟨r1, fun h2 => hfail (r4.mp h2), r2⟩

/-- Witness for C7: port 8000 fails its bind in the first event; after a
retry event with a would-succeed bind, it is still registered, still has
no listener, and its attempt count is still one. -/
theorem startForwarder_failed_never_retried_witness :
    "8000".data ∈ (runForwarders ([("8000".data, false)] ++ [("8000".data, true)])).registry
    ∧ "8000".data ∉ (runForwarders ([("8000".data, false)] ++ [("8000".data, true)])).started
    ∧ (runForwarders ([("8000".data, false)] ++ [("8000".data, true)])).attempted.count "8000".data
        = (runForwarders [("8000".data, false)]).attempted.count "8000".data :=
  startForwarder_failed_never_retried [("8000".data, false)] [("8000".data, true)]
    "8000".data (by decide) (by decide)

/-! Frame lemmas for port discovery (C9). -/

/-- Storing back the value a key already holds leaves a Go map unchanged. -/
lemma objUpsert_self (m : JObj) (k : Str) (v : Json) (h : objGet m k = some v) :
    objUpsert m k v = m := by
  induction m with
  | nil => exact absurd h (by simp [objGet])
  | cons kv rest ih =>
    obtain ⟨k0, v0⟩ := kv
    by_cases hk : k0 = k
    · rw [objGet, if_pos hk] at h
      rw [objUpsert, if_pos hk]
      injection h with h2
      rw [h2]
    · rw [objGet, if_neg hk] at h
      rw [objUpsert, if_neg hk, ih h]

/-- A rewriting loop whose step touches no element returns the slice
unchanged with the modified flag unset. -/
lemma rewriteList_id (f : Json → Json × Bool) (xs : List Json)
    (h : ∀ j ∈ xs, f j = (j, false)) : rewriteList f xs = (xs, false) := by
  induction xs with
  | nil => rfl
  | cons a r ih =>
    have ha := h a (List.mem_cons_self a r)
    have hr := ih (fun j hj => h j (List.mem_cons_of_mem a hj))
    rw [Prod.mk.injEq] at hr
    simp only [rewriteList, List.map_cons, List.any_cons, ha] at *
    simp [hr.1, hr.2]

/-- True when no element of the Binds list (when present with the right
types) is a string matching bindRegex; the hypothesis of claim C9. -/
def noBindMatches (fields : JObj) : Bool :=
  match objGet fields "HostConfig".data with
  | some (Json.obj hc) =>
      (match objGet hc "Binds".data with
       | some (Json.arr bs) =>
           bs.all (fun j =>
             match j with
             | Json.str s => (bindFind s).isNone
             | _ => true)
       | _ => true)
  | _ => true

/-- True when no element of the Env list (when present with the right
types) is a KEY=VALUE string whose value matches envPathRegex; the
hypothesis of claim C9. -/
def noEnvMatches (fields : JObj) : Bool :=
  match objGet fields "Env".data with
  | some (Json.arr es) =>
      es.all (fun j =>
        match j with
        | Json.str s =>
            (match splitFirstEq s with
             | some kv => (envPathFind kv.2).isNone
             | none => true)
        | _ => true)
  | _ => true

/-- Under noBindMatches, the HostConfig section changes nothing and
reports exactly the discovered ports. -/
lemma rewriteHostConfig_nomatch (base : Str) (fields : JObj)
    (hb : noBindMatches fields = true) :
    rewriteHostConfig base fields = (fields, extractPortsFields fields, false) := by
  rw [noBindMatches] at hb
  rw [rewriteHostConfig, extractPortsFields]
  cases hhc : objGet fields ("HostConfig".data) with
  | none => rfl
  | some v =>
    cases v with
    | obj hc =>
      rw [hhc] at hb
      dsimp only at hb ⊢
      cases hbinds : objGet hc ("Binds".data) with
      | none =>
        dsimp only
        rw [objUpsert_self fields _ _ hhc]
      | some bv =>
        cases bv with
        | arr bs =>
          rw [hbinds] at hb
          dsimp only at hb ⊢
          have hall : ∀ j ∈ bs, rewriteBindElem base j = (j, false) := by
            intro j hj
            have h2 := List.all_eq_true.mp hb j hj
            cases j with
            | str s =>
              have h3 : (bindFind s).isNone = true := h2
              rw [Option.isNone_iff_eq_none] at h3
              simp [rewriteBindElem, rewriteBindEntry, h3]
            | null => rfl
            | bool b => rfl
            | num n => rfl
            | arr a => rfl
            | obj o => rfl
          rw [rewriteList_id _ bs hall]
          dsimp only
          rw [objUpsert_self hc _ _ hbinds, objUpsert_self fields _ _ hhc]
        | null => dsimp only; rw [objUpsert_self fields _ _ hhc]
        | bool b => dsimp only; rw [objUpsert_self fields _ _ hhc]
        | num n => dsimp only; rw [objUpsert_self fields _ _ hhc]
        | str s => dsimp only; rw [objUpsert_self fields _ _ hhc]
        | obj o => dsimp only; rw [objUpsert_self fields _ _ hhc]
    | null => rfl
    | bool b => rfl
    | num n => rfl
    | str s => rfl
    | arr a => rfl

/-- Under noEnvMatches, the Env section changes nothing. -/
lemma rewriteEnvSection_nomatch (base : Str) (fields : JObj)
    (he : noEnvMatches fields = true) :
    rewriteEnvSection base fields = (fields, false) := by
  rw [noEnvMatches] at he
  rw [rewriteEnvSection]
  cases henv : objGet fields ("Env".data) with
  | none => rfl
  | some v =>
    cases v with
    | arr es =>
      rw [henv] at he
      dsimp only at he ⊢
      have hall : ∀ j ∈ es, rewriteEnvElem base j = (j, false) := by
        intro j hj
        have h2 := List.all_eq_true.mp he j hj
        cases j with
        | str s =>
          cases hsp : splitFirstEq s with
          | none => simp [rewriteEnvElem, rewriteEnvEntry, hsp]
          | some kv =>
            have h3 : (match splitFirstEq s with
                | some kv => (envPathFind kv.2).isNone
                | none => true) = true := h2
            rw [hsp] at h3
            rw [Option.isNone_iff_eq_none] at h3
            simp [rewriteEnvElem, rewriteEnvEntry, hsp, h3]
        | null => rfl
        | bool b => rfl
        | num n => rfl
        | arr a => rfl
        | obj o => rfl
      rw [rewriteList_id _ es hall]
      dsimp only
      rw [objUpsert_self fields _ _ henv]
    | null => rfl
    | bool b => rfl
    | num n => rfl
    | str s => rfl
    | obj o => rfl

/-- With no bind and no environment match, the tree is unchanged, the
modified flag stays false, and exactly the discovered ports come back. -/
lemma modifyTree_nomatch (base : Str) (fields : JObj)
    (hb : noBindMatches fields = true) (he : noEnvMatches fields = true) :
    modifyTree base fields = (fields, extractPortsFields fields, false) := by
  rw [modifyTree, rewriteHostConfig_nomatch base fields hb]
  rw [rewriteEnvSection_nomatch base fields he]
  rfl

/-- C9 -- port discovery alone never modifies the body: a parseable payload
whose binds and environment lists contain no matching element is passed
through byte-for-byte with the modified flag unset, while every HostPort
occurrence is still reported, one report per occurrence. -/
theorem modifyAndExtract_ports_frame (base body : Str) (fields : JObj)
    (hp : parseTopObj body = some fields)
    (hports : extractPortsFields fields ≠ ([] : List Str))
    (hb : noBindMatches fields = true)
    (he : noEnvMatches fields = true) :
    modifyAndExtract base body = (body, extractPortsFields fields, false) := by
  simp [modifyAndExtract, hp, modifyTree_nomatch base fields hb he]

/-- The parse tree of demoBody. -/
def demoFields : JObj :=
  [("HostConfig".data,
    Json.obj [("PortBindings".data,
      Json.obj [("5432/tcp".data,
        Json.arr [Json.obj [("HostPort".data, Json.str "54322".data)]])])])]

/-- The spec's scenario 4 payload. -/
def demoBody : Str :=
  "\x7b\"HostConfig\":\x7b\"PortBindings\":\x7b\"5432/tcp\":[\x7b\"HostPort\":\"54322\"\x7d]\x7d\x7d\x7d".data

/-- Witness for C9 at the spec's scenario 4 payload: one port reported,
body and flag untouched. -/
theorem modifyAndExtract_ports_frame_witness :
    modifyAndExtract "/vol/".data demoBody = (demoBody, ["54322".data], false) :=
  modifyAndExtract_ports_frame "/vol/".data demoBody demoFields rfl
    (by decide) rfl rfl
